import Mathlib

/-!
Shallow embedding of the cw1155-base multi-token contract
(`contracts/cw1155-base/src/execute.rs`) together with the supporting
types from the `cw1155` package and `cw_utils`.

Addresses and token ids are strings; the host's address-validation
service is an external collaborator and is modelled as always
succeeding (validation is the identity on strings).  `Uint128`
quantities are modelled as `Nat` with explicit bound checks at
`2 ^ 128 - 1`, matching `checked_add` / `checked_sub` on `Uint128`.
Persistent maps (`Item`, `Map`, `IndexedMap`) are modelled as
association lists.  Fallible code returns `Except ContractError`, with
the two `panic`-style failure points of `update_transfer_state`
represented by the dedicated error values `PanicBothNone` (the
`from`/`to` both-`None` branch) and `PanicUnwrapNone` (the `unwrap` of
a missing sender balance inside `balances.update`).
-/

/-- Maximum value of a `Uint128`. -/
def U128_MAX : Nat := 2 ^ 128 - 1

/-- Errors of the contract (`Cw1155ContractError` plus the `StdError`
cases that actually arise in `execute.rs`, plus the two panic points
modelled as distinguished errors). -/
inductive ContractError where
  | Unauthorized
  | Expired
  | NotFound
  | Overflow
  | Underflow
  | PanicBothNone
  | PanicUnwrapNone
deriving DecidableEq

/-- `Uint128::checked_add`: fails with an overflow error when the sum
exceeds the 128-bit range. -/
def checked_add (a b : Nat) : Except ContractError Nat :=
  if a + b ≤ U128_MAX then .ok (a + b) else .error .Overflow

/-- `Uint128::checked_sub`: fails with an underflow error when the
subtrahend exceeds the minuend. -/
def checked_sub (a b : Nat) : Except ContractError Nat :=
  if b ≤ a then .ok (a - b) else .error .Underflow

/-- Block context supplied by the host (`Env.block`): current height and
time. -/
structure BlockInfo where
  height : Nat
  time : Nat
deriving DecidableEq

/-- `cw_utils::Expiration`: never / at block height / at timestamp. -/
inductive Expiration where
  | atHeight (h : Nat)
  | atTime (t : Nat)
  | never
deriving DecidableEq

/-- `cw_utils::Expiration::is_expired`: an `AtHeight h` expiry is expired
once the block height reaches `h`, an `AtTime t` expiry once the block
time reaches `t`; `Never` is never expired. -/
def Expiration.is_expired (e : Expiration) (b : BlockInfo) : Bool :=
  match e with
  | .atHeight h => decide (h ≤ b.height)
  | .atTime t => decide (t ≤ b.time)
  | .never => false

/-- `cw1155::TokenAmount`: one (token-id, amount) pair. -/
structure TokenAmount where
  token_id : String
  amount : Nat
deriving DecidableEq

/-- `cw1155::Balance`: one balance record, keyed by (owner, token-id). -/
structure Balance where
  owner : String
  amount : Nat
  token_id : String
deriving DecidableEq

/-- `cw1155-base` `TokenInfo`: token metadata saved at first mint.  The
generic extension payload is modelled as an optional string. -/
structure TokenInfo where
  token_uri : Option String
  extension : Option String
deriving DecidableEq

/-- Association-list lookup, modelling `Map::may_load`. -/
def lookupKV {α β : Type} [DecidableEq α] : List (α × β) → α → Option β
  | [], _ => none
  | (k, v) :: rest, key => if k = key then some v else lookupKV rest key

/-- Association-list insert-or-overwrite, modelling `Map::save`. -/
def insertKV {α β : Type} [DecidableEq α] : List (α × β) → α → β → List (α × β)
  | [], key, val => [(key, val)]
  | (k, v) :: rest, key, val =>
    if k = key then (key, val) :: rest else (k, v) :: insertKV rest key val

/-- Association-list removal, modelling `Map::remove`. -/
def removeKV {α β : Type} [DecidableEq α] : List (α × β) → α → List (α × β)
  | [], _ => []
  | (k, v) :: rest, key =>
    if k = key then removeKV rest key else (k, v) :: removeKV rest key

/-- The contract's persistent state (`Cw1155Contract`): the minter
address (`Item`), the balance map keyed by (owner, token-id), the
operator-approval map keyed by (owner, operator), the token-metadata
map keyed by token-id, and the per-token supply counter map. -/
structure ContractState where
  minter : String
  balances : List ((String × String) × Balance)
  approves : List ((String × String) × Expiration)
  tokens : List (String × TokenInfo)
  supplies : List (String × Nat)
deriving DecidableEq

/-- `instantiate`: stores the validated minter address; every map starts
empty. -/
def instantiate (minter : String) : ContractState :=
  { minter := minter, balances := [], approves := [], tokens := [], supplies := [] }

/-- Modelled from the spec: the supply-counter read helper lives in the
repository's `state.rs`, which is not among the provided sources.  The
spec describes the Supply Counter as a persistent mapping asset-id →
total quantity; a token-id with no record has supply zero. -/
def token_count (st : ContractState) (id : String) : Nat :=
  (lookupKV st.supplies id).getD 0

/-- Modelled from the spec: `increment_tokens` lives in the repository's
`state.rs`, which is not among the provided sources.  Per the spec the
Supply Counter is "incremented on mint" by the minted quantity. -/
def increment_tokens (st : ContractState) (id : String) (amount : Nat) :
    Except ContractError ContractState :=
  match checked_add (token_count st id) amount with
  | .ok n => .ok { st with supplies := insertKV st.supplies id n }
  | .error e => .error e

/-- Modelled from the spec: `decrement_tokens` lives in the repository's
`state.rs`, which is not among the provided sources.  Per the spec the
Supply Counter is "decremented on burn" by the burned quantity. -/
def decrement_tokens (st : ContractState) (id : String) (amount : Nat) :
    Except ContractError ContractState :=
  match checked_sub (token_count st id) amount with
  | .ok n => .ok { st with supplies := insertKV st.supplies id n }
  | .error e => .error e

/-- The operator-approval test used by `verify_approval`: an approval
record exists for (owner, operator) and is not expired at the current
block. -/
def approvedNotExpired (st : ContractState) (blk : BlockInfo) (owner operator : String) : Bool :=
  match lookupKV st.approves (owner, operator) with
  | some ex => ! ex.is_expired blk
  | none => false

/-- The authorization condition of `verify_approval`: the caller is the
owner, or holds an unexpired operator approval from the owner. -/
def callerAuthorized (st : ContractState) (blk : BlockInfo) (sender owner : String) : Bool :=
  owner == sender || approvedNotExpired st blk owner sender

/-- `verify_approval`: loads the owner's balance record for the token-id
(failing if absent), clamps the requested amount to that balance, and
returns the clamped token amount when the caller is the owner or an
unexpired operator; otherwise fails with `Unauthorized`. -/
def verify_approval (st : ContractState) (blk : BlockInfo) (sender owner token_id : String)
    (amount : Nat) : Except ContractError TokenAmount :=
  match lookupKV st.balances (owner, token_id) with
  | none => .error .NotFound
  | some owner_balance =>
    if callerAuthorized st blk sender owner then
      .ok { token_id := token_id, amount := min owner_balance.amount amount }
    else
      .error .Unauthorized

/-- `verify_approvals`: applies `verify_approval` to each pair of the
batch in order, failing the whole batch on the first failure. -/
def verify_approvals (st : ContractState) (blk : BlockInfo) (sender owner : String) :
    List TokenAmount → Except ContractError (List TokenAmount)
  | [] => .ok []
  | ta :: rest =>
    match verify_approval st blk sender owner ta.token_id ta.amount with
    | .error e => .error e
    | .ok v =>
      match verify_approvals st blk sender owner rest with
      | .error e => .error e
      | .ok vs => .ok (v :: vs)

/-- Events emitted by the contract (`TransferEvent`, `BurnEvent`,
`MintEvent`, `ApproveAllEvent`, `RevokeAllEvent`), each carrying the
addresses involved and, for the first three, the (token-id, amount)
pairs affected. -/
inductive Event where
  | transfer (sender recipient : String) (tokens : List TokenAmount)
  | burn (sender : String) (tokens : List TokenAmount)
  | mint (recipient : String) (tokens : List TokenAmount)
  | approveAll (sender operator : String)
  | revokeAll (sender operator : String)
deriving DecidableEq

/-- Submessages attached to a response: the single and batch receive
hooks (`Cw1155ReceiveMsg` / `Cw1155BatchReceiveMsg`), addressed to the
recipient.  The opaque `Binary` payload is modelled as a string. -/
inductive SubMsg where
  | receive (operator : String) (sender : Option String) (token_id : String) (amount : Nat)
      (payload : String) (recipient : String)
  | batchReceive (operator : String) (sender : Option String) (batch : List TokenAmount)
      (payload : String) (recipient : String)
deriving DecidableEq

/-- The parts of `cosmwasm_std::Response` the contract populates:
emitted events and attached submessages. -/
structure Response where
  events : List Event
  messages : List SubMsg
deriving DecidableEq

/-- The sender-side loop of `update_transfer_state`: for each
(token-id, amount) pair, `balances.update` on key (sender, token-id)
unwraps the existing record (a missing record is the `unwrap` panic)
and subtracts the amount with `checked_sub`. -/
def subtractBalances (st : ContractState) (src : String) :
    List TokenAmount → Except ContractError ContractState
  | [] => .ok st
  | ta :: rest =>
    match lookupKV st.balances (src, ta.token_id) with
    | none => .error .PanicUnwrapNone
    | some b =>
      match checked_sub b.amount ta.amount with
      | .error e => .error e
      | .ok n =>
        subtractBalances
          { st with balances := insertKV st.balances (src, ta.token_id) { b with amount := n } }
          src rest

/-- The recipient-side loop of `update_transfer_state`: for each
(token-id, amount) pair, `balances.update` on key (recipient, token-id)
starts from a zero-amount record when none exists and adds the amount
with `checked_add`. -/
def addBalances (st : ContractState) (dst : String) :
    List TokenAmount → Except ContractError ContractState
  | [] => .ok st
  | ta :: rest =>
    match lookupKV st.balances (dst, ta.token_id) with
    | some b =>
      match checked_add b.amount ta.amount with
      | .error e => .error e
      | .ok n =>
        addBalances
          { st with balances := insertKV st.balances (dst, ta.token_id) { b with amount := n } }
          dst rest
    | none =>
      match checked_add 0 ta.amount with
      | .error e => .error e
      | .ok n =>
        let nb : Balance := { owner := dst, amount := n, token_id := ta.token_id }
        addBalances { st with balances := insertKV st.balances (dst, ta.token_id) nb } dst rest

/-- The supply-decrement loop of the burn branch of
`update_transfer_state`. -/
def decrementAll (st : ContractState) : List TokenAmount → Except ContractError ContractState
  | [] => .ok st
  | ta :: rest =>
    match decrement_tokens st ta.token_id ta.amount with
    | .error e => .error e
    | .ok st1 => decrementAll st1 rest

/-- The supply-increment loop of the mint branch of
`update_transfer_state`. -/
def incrementAll (st : ContractState) : List TokenAmount → Except ContractError ContractState
  | [] => .ok st
  | ta :: rest =>
    match increment_tokens st ta.token_id ta.amount with
    | .error e => .error e
    | .ok st1 => incrementAll st1 rest

/-- `update_transfer_state`: subtracts every amount from the source (when
present), adds every amount to the destination (when present), then by
the presence of source/destination emits a transfer event, or
decrements supplies and emits a burn event, or increments supplies and
emits a mint event; with both absent it hits the
`panic!("Invalid transfer ...")` branch, modelled as `PanicBothNone`. -/
def update_transfer_state (st : ContractState) (src dst : Option String)
    (tokens : List TokenAmount) : Except ContractError (ContractState × Event) :=
  match (match src with
         | some f => subtractBalances st f tokens
         | none => .ok st) with
  | .error e => .error e
  | .ok st1 =>
    match (match dst with
           | some t => addBalances st1 t tokens
           | none => .ok st1) with
    | .error e => .error e
    | .ok st2 =>
      match src, dst with
      | some f, some t => .ok (st2, .transfer f t tokens)
      | some f, none =>
        match decrementAll st2 tokens with
        | .error e => .error e
        | .ok st3 => .ok (st3, .burn f tokens)
      | none, some t =>
        match incrementAll st2 tokens with
        | .error e => .error e
        | .ok st3 => .ok (st3, .mint t tokens)
      | none, none => .error .PanicBothNone

/-- `MintMsg`: recipient, token-id, amount and the optional metadata
carried by a mint message.  The source field `to` is a reserved word in
Lean and is rendered as `to_addr`. -/
structure MintMsg where
  to_addr : String
  token_id : String
  amount : Nat
  token_uri : Option String
  extension : Option String
deriving DecidableEq

/-- `mint`: rejects a caller other than the stored minter, applies a
mint transfer-state update to the recipient, and — when the token-id has
no metadata record yet — saves the metadata from the message and
increments the supply counter once more. -/
def mint (st : ContractState) (sender : String) (msg : MintMsg) :
    Except ContractError (ContractState × Response) :=
  if sender ≠ st.minter then .error .Unauthorized
  else
    match update_transfer_state st none (some msg.to_addr)
        [{ token_id := msg.token_id, amount := msg.amount }] with
    | .error e => .error e
    | .ok (st1, event) =>
      if (lookupKV st1.tokens msg.token_id).isNone then
        let ti : TokenInfo := { token_uri := msg.token_uri, extension := msg.extension }
        let stt := { st1 with tokens := insertKV st1.tokens msg.token_id ti }
        match increment_tokens stt msg.token_id msg.amount with
        | .error e => .error e
        | .ok st2 => .ok (st2, { events := [event], messages := [] })
      else
        .ok (st1, { events := [event], messages := [] })

/-- `send_from`: verifies approval of the caller for the source owner
(clamping the amount), applies a transfer-state update with the clamped
amount, and, when a payload is attached, adds a receive hook that
carries the original requested amount. -/
def send_from (st : ContractState) (blk : BlockInfo) (sender src dst token_id : String)
    (amount : Nat) (payload : Option String) : Except ContractError (ContractState × Response) :=
  match verify_approval st blk sender src token_id amount with
  | .error e => .error e
  | .ok balance_update =>
    match update_transfer_state st (some src) (some dst)
        [{ token_id := token_id, amount := balance_update.amount }] with
    | .error e => .error e
    | .ok (st1, event) =>
      .ok (st1,
        { events := [event],
          messages :=
            match payload with
            | some m => [.receive sender (some src) token_id amount m dst]
            | none => [] })

/-- `batch_send_from`: verifies approvals for the whole batch (clamping
each amount), applies one transfer-state update with the verified
batch, and, when a payload is attached, adds a batch receive hook
carrying the verified batch. -/
def batch_send_from (st : ContractState) (blk : BlockInfo) (sender src dst : String)
    (batch : List TokenAmount) (payload : Option String) :
    Except ContractError (ContractState × Response) :=
  match verify_approvals st blk sender src batch with
  | .error e => .error e
  | .ok verified =>
    match update_transfer_state st (some src) (some dst) verified with
    | .error e => .error e
    | .ok (st1, event) =>
      .ok (st1,
        { events := [event],
          messages :=
            match payload with
            | some m => [.batchReceive sender (some src) verified m dst]
            | none => [] })

/-- `burn`: the source owner is the caller; verifies approval (trivially
satisfied since owner equals caller) with clamping, then applies a burn
transfer-state update with the clamped amount. -/
def burn (st : ContractState) (blk : BlockInfo) (sender token_id : String) (amount : Nat) :
    Except ContractError (ContractState × Response) :=
  match verify_approval st blk sender sender token_id amount with
  | .error e => .error e
  | .ok balance_update =>
    match update_transfer_state st (some sender) none
        [{ token_id := token_id, amount := balance_update.amount }] with
    | .error e => .error e
    | .ok (st1, event) => .ok (st1, { events := [event], messages := [] })

/-- `batch_burn`: the source owner is the caller; verifies approvals for
the whole batch, then applies one burn transfer-state update with the
verified batch. -/
def batch_burn (st : ContractState) (blk : BlockInfo) (sender : String)
    (batch : List TokenAmount) : Except ContractError (ContractState × Response) :=
  match verify_approvals st blk sender sender batch with
  | .error e => .error e
  | .ok verified =>
    match update_transfer_state st (some sender) none verified with
    | .error e => .error e
    | .ok (st1, event) => .ok (st1, { events := [event], messages := [] })

/-- `approve_all`: defaults a missing expiry to `Never`, rejects an
already-expired expiry with `Expired`, and otherwise saves the expiry
under key (sender, operator), overwriting any prior approval. -/
def approve_all (st : ContractState) (blk : BlockInfo) (sender operator : String)
    (expires : Option Expiration) : Except ContractError (ContractState × Response) :=
  let ex := expires.getD .never
  if ex.is_expired blk then .error .Expired
  else
    .ok ({ st with approves := insertKV st.approves (sender, operator) ex },
      { events := [.approveAll sender operator], messages := [] })

/-- `revoke_all`: unconditionally removes the approval record under key
(sender, operator). -/
def revoke_all (st : ContractState) (sender operator : String) :
    Except ContractError (ContractState × Response) :=
  .ok ({ st with approves := removeKV st.approves (sender, operator) },
    { events := [.revokeAll sender operator], messages := [] })

/-- The externally dispatchable messages (`ExecuteMsg`). -/
inductive ExecuteMsg where
  | Mint (msg : MintMsg)
  | SendFrom (src dst token_id : String) (amount : Nat) (payload : Option String)
  | BatchSendFrom (src dst : String) (batch : List TokenAmount) (payload : Option String)
  | Burn (token_id : String) (amount : Nat)
  | BatchBurn (batch : List TokenAmount)
  | ApproveAll (operator : String) (expires : Option Expiration)
  | RevokeAll (operator : String)
deriving DecidableEq

/-- `execute`: dispatches an external message to its handler. -/
def execute (st : ContractState) (blk : BlockInfo) (sender : String) (msg : ExecuteMsg) :
    Except ContractError (ContractState × Response) :=
  match msg with
  | .Mint m => mint st sender m
  | .SendFrom src dst token_id amount payload =>
    send_from st blk sender src dst token_id amount payload
  | .BatchSendFrom src dst batch payload => batch_send_from st blk sender src dst batch payload
  | .Burn token_id amount => burn st blk sender token_id amount
  | .BatchBurn batch => batch_burn st blk sender batch
  | .ApproveAll operator expires => approve_all st blk sender operator expires
  | .RevokeAll operator => revoke_all st sender operator

/-- The host's transactional envelope: an operation that returns an
error leaves the persistent state untouched; a successful one commits
its new state. -/
def commitState (st : ContractState) (r : Except ContractError (ContractState × Response)) :
    ContractState :=
  match r with
  | .ok p => p.1
  | .error _ => st

/-- Sum of all balance amounts recorded for one token-id, over all
owners. -/
def sumBalances (st : ContractState) (token_id : String) : Nat :=
  (st.balances.filter (fun p => p.1.2 == token_id)).foldl (fun acc p => acc + p.2.amount) 0

/-- Decidable equality of results, so that concrete runs of the embedded
handlers can be checked by evaluation. -/
instance exceptDecEq {ε α : Type} [DecidableEq ε] [DecidableEq α] : DecidableEq (Except ε α)
  | .ok a, .ok b =>
    if h : a = b then .isTrue (by rw [h]) else .isFalse (by simp [h])
  | .ok _, .error _ => .isFalse (by simp)
  | .error _, .ok _ => .isFalse (by simp)
  | .error e, .error f =>
    if h : e = f then .isTrue (by rw [h]) else .isFalse (by simp [h])

/-- Balance amount an owner holds for a token-id, zero when no record
exists (the read used by the recipient side of `balances.update`). -/
def balanceAmount (st : ContractState) (owner token_id : String) : Nat :=
  ((lookupKV st.balances (owner, token_id)).map Balance.amount).getD 0

/-- Result classifier for claim C9: `true` unless the result is the
modelled `panic!` of the both-`None` branch of `update_transfer_state`. -/
def notBothNonePanic (r : Except ContractError (ContractState × Response)) : Bool :=
  match r with
  | .error .PanicBothNone => false
  | _ => true

/-- Fixture: a mint message for 100 units of token `A` to `alice`. -/
def mintMsgA : MintMsg :=
  { to_addr := "alice", token_id := "A", amount := 100, token_uri := some "u", extension := none }

/-- Fixture: a balance record of 100 units of token `A` for `alice`. -/
def balA : Balance := { owner := "alice", amount := 100, token_id := "A" }

/-- Fixture: a contract state where `alice` holds 100 units of token `A`,
`bob` holds an approval from `alice` expiring at height 5, token `A` has
a metadata record, and the supply counter of `A` is 100. -/
def stW : ContractState :=
  { minter := "m",
    balances := [(("alice", "A"), balA)],
    approves := [(("alice", "bob"), .atHeight 5)],
    tokens := [("A", { token_uri := some "u", extension := none })],
    supplies := [("A", 100)] }

/-- Fixture: the state reached by executing the first mint (100 of token
`A` to `alice` by the minter) from the freshly instantiated contract. -/
def stAfterFirstMint : ContractState :=
  { minter := "m",
    balances := [(("alice", "A"), { owner := "alice", amount := 100, token_id := "A" })],
    approves := [],
    tokens := [("A", { token_uri := some "u", extension := none })],
    supplies := [("A", 200)] }

/-- Fixture: a state where the recipient `bob` already holds the maximal
128-bit balance of token `A`, so a transfer to `bob` overflows. -/
def stOv : ContractState :=
  { minter := "m",
    balances := [(("alice", "A"), { owner := "alice", amount := 1, token_id := "A" }),
                 (("bob", "A"), { owner := "bob", amount := U128_MAX, token_id := "A" })],
    approves := [], tokens := [], supplies := [("A", 100)] }

/-- Fixture: a state where `alice` holds 5 units of token `A` but the
supply counter has no record, so a burn underflows the counter. -/
def stUf : ContractState :=
  { minter := "m",
    balances := [(("alice", "A"), { owner := "alice", amount := 5, token_id := "A" })],
    approves := [], tokens := [], supplies := [] }

theorem lookupKV_insertKV_self {α β : Type} [DecidableEq α] (l : List (α × β)) (k : α) (v : β) :
    lookupKV (insertKV l k v) k = some v := by
  induction l with
  | nil => simp [insertKV, lookupKV]
  | cons hd tl ih =>
    obtain ⟨k1, v1⟩ := hd
    by_cases h : k1 = k
    · simp [insertKV, lookupKV, h]
    · simp [insertKV, lookupKV, h, ih]

theorem lookupKV_insertKV_ne {α β : Type} [DecidableEq α] (l : List (α × β)) (k k2 : α) (v : β)
    (h : k ≠ k2) : lookupKV (insertKV l k v) k2 = lookupKV l k2 := by
  induction l with
  | nil => simp [insertKV, lookupKV, h]
  | cons hd tl ih =>
    obtain ⟨k1, v1⟩ := hd
    by_cases h1 : k1 = k
    · subst h1
      simp [insertKV, lookupKV, h]
    · by_cases h2 : k1 = k2
      · simp [insertKV, lookupKV, h1, h2, Ne.symm h]
      · simp [insertKV, lookupKV, h1, h2, ih]

theorem checked_add_ok (a b : Nat) (h : a + b ≤ U128_MAX) : checked_add a b = .ok (a + b) := by
  simp [checked_add, h]

theorem checked_sub_ok (a b : Nat) (h : b ≤ a) : checked_sub a b = .ok (a - b) := by
  simp [checked_sub, h]

theorem subtractBalances_single (st : ContractState) (src tid : String) (d : Nat) (b : Balance)
    (hb : lookupKV st.balances (src, tid) = some b) (hle : d ≤ b.amount) :
    subtractBalances st src [{ token_id := tid, amount := d }] =
      .ok { st with balances := insertKV st.balances (src, tid) { b with amount := b.amount - d } } := by
  simp [subtractBalances, hb, checked_sub, hle]

theorem addBalances_single (st : ContractState) (dst tid : String) (a : Nat)
    (h : balanceAmount st dst tid + a ≤ U128_MAX) :
    ∃ b2 : Balance,
      addBalances st dst [{ token_id := tid, amount := a }] =
        .ok { st with balances := insertKV st.balances (dst, tid) b2 } ∧
      b2.amount = balanceAmount st dst tid + a := by
  cases hb : lookupKV st.balances (dst, tid) with
  | some b =>
    have hba : balanceAmount st dst tid = b.amount := by
      simp [balanceAmount, hb]
    refine ⟨{ b with amount := b.amount + a }, ?_, by simp [hba]⟩
    rw [hba] at h
    simp [addBalances, hb, checked_add, h]
  | none =>
    have hba : balanceAmount st dst tid = 0 := by
      simp [balanceAmount, hb]
    have h2 : a ≤ U128_MAX := by
      rw [hba] at h
      omega
    refine ⟨{ owner := dst, amount := a, token_id := tid }, ?_, by simp [hba]⟩
    simp [addBalances, hb, checked_add, h2]

theorem increment_tokens_ok (st : ContractState) (tid : String) (a : Nat)
    (h : token_count st tid + a ≤ U128_MAX) :
    increment_tokens st tid a =
      .ok { st with supplies := insertKV st.supplies tid (token_count st tid + a) } := by
  simp [increment_tokens, checked_add, h]

theorem decrement_tokens_ok (st : ContractState) (tid : String) (a : Nat)
    (h : a ≤ token_count st tid) :
    decrement_tokens st tid a =
      .ok { st with supplies := insertKV st.supplies tid (token_count st tid - a) } := by
  simp [decrement_tokens, checked_sub, h]
theorem subtractBalances_fields (src : String) (ts : List TokenAmount) :
    ∀ st st' : ContractState, subtractBalances st src ts = .ok st' →
      st'.minter = st.minter ∧ st'.approves = st.approves ∧ st'.tokens = st.tokens ∧
      st'.supplies = st.supplies := by
  induction ts with
  | nil =>
    intro st st' h
    simp [subtractBalances] at h
    subst h
    exact ⟨rfl, rfl, rfl, rfl⟩
  | cons hd tl ih =>
    intro st st' h
    simp only [subtractBalances] at h
    split at h
    · exact absurd h (by simp)
    · split at h
      · exact absurd h (by simp)
      · obtain ⟨a1, a2, a3, a4⟩ := ih _ _ h
        exact ⟨a1, a2, a3, a4⟩

theorem addBalances_fields (dst : String) (ts : List TokenAmount) :
    ∀ st st' : ContractState, addBalances st dst ts = .ok st' →
      st'.minter = st.minter ∧ st'.approves = st.approves ∧ st'.tokens = st.tokens ∧
      st'.supplies = st.supplies := by
  induction ts with
  | nil =>
    intro st st' h
    simp [addBalances] at h
    subst h
    exact ⟨rfl, rfl, rfl, rfl⟩
  | cons hd tl ih =>
    intro st st' h
    simp only [addBalances] at h
    split at h
    · split at h
      · exact absurd h (by simp)
      · obtain ⟨a1, a2, a3, a4⟩ := ih _ _ h
        exact ⟨a1, a2, a3, a4⟩
    · split at h
      · exact absurd h (by simp)
      · obtain ⟨a1, a2, a3, a4⟩ := ih _ _ h
        exact ⟨a1, a2, a3, a4⟩

theorem increment_tokens_fields (st : ContractState) (id : String) (a : Nat)
    (st' : ContractState) (h : increment_tokens st id a = .ok st') :
    st'.minter = st.minter ∧ st'.approves = st.approves ∧ st'.tokens = st.tokens ∧
    st'.balances = st.balances := by
  simp only [increment_tokens] at h
  split at h
  · simp at h
    subst h
    exact ⟨rfl, rfl, rfl, rfl⟩
  · exact absurd h (by simp)

theorem decrement_tokens_fields (st : ContractState) (id : String) (a : Nat)
    (st' : ContractState) (h : decrement_tokens st id a = .ok st') :
    st'.minter = st.minter ∧ st'.approves = st.approves ∧ st'.tokens = st.tokens ∧
    st'.balances = st.balances := by
  simp only [decrement_tokens] at h
  split at h
  · simp at h
    subst h
    exact ⟨rfl, rfl, rfl, rfl⟩
  · exact absurd h (by simp)

theorem incrementAll_fields (ts : List TokenAmount) :
    ∀ st st' : ContractState, incrementAll st ts = .ok st' →
      st'.minter = st.minter ∧ st'.approves = st.approves ∧ st'.tokens = st.tokens ∧
      st'.balances = st.balances := by
  induction ts with
  | nil =>
    intro st st' h
    simp [incrementAll] at h
    subst h
    exact ⟨rfl, rfl, rfl, rfl⟩
  | cons hd tl ih =>
    intro st st' h
    simp only [incrementAll] at h
    split at h
    · exact absurd h (by simp)
    · rename_i st1 h1
      obtain ⟨a1, a2, a3, a4⟩ := ih _ _ h
      obtain ⟨b1, b2, b3, b4⟩ := increment_tokens_fields st hd.token_id hd.amount st1 h1
      exact ⟨a1.trans b1, a2.trans b2, a3.trans b3, a4.trans b4⟩

theorem decrementAll_fields (ts : List TokenAmount) :
    ∀ st st' : ContractState, decrementAll st ts = .ok st' →
      st'.minter = st.minter ∧ st'.approves = st.approves ∧ st'.tokens = st.tokens ∧
      st'.balances = st.balances := by
  induction ts with
  | nil =>
    intro st st' h
    simp [decrementAll] at h
    subst h
    exact ⟨rfl, rfl, rfl, rfl⟩
  | cons hd tl ih =>
    intro st st' h
    simp only [decrementAll] at h
    split at h
    · exact absurd h (by simp)
    · rename_i st1 h1
      obtain ⟨a1, a2, a3, a4⟩ := ih _ _ h
      obtain ⟨b1, b2, b3, b4⟩ := decrement_tokens_fields st hd.token_id hd.amount st1 h1
      exact ⟨a1.trans b1, a2.trans b2, a3.trans b3, a4.trans b4⟩

theorem update_transfer_state_fields (st : ContractState) (src dst : Option String)
    (ts : List TokenAmount) (st' : ContractState) (ev : Event)
    (h : update_transfer_state st src dst ts = .ok (st', ev)) :
    st'.minter = st.minter ∧ st'.approves = st.approves ∧ st'.tokens = st.tokens := by
  simp only [update_transfer_state] at h
  split at h
  · exact absurd h (by simp)
  · rename_i st1 h1
    have p1 : st1.minter = st.minter ∧ st1.approves = st.approves ∧ st1.tokens = st.tokens := by
      cases src with
      | none =>
        simp at h1
        subst h1
        exact ⟨rfl, rfl, rfl⟩
      | some f =>
        simp only at h1
        obtain ⟨a, b, c, _⟩ := subtractBalances_fields f ts st st1 h1
        exact ⟨a, b, c⟩
    split at h
    · exact absurd h (by simp)
    · rename_i st2 h2
      have p2 : st2.minter = st1.minter ∧ st2.approves = st1.approves ∧
          st2.tokens = st1.tokens := by
        cases dst with
        | none =>
          simp at h2
          subst h2
          exact ⟨rfl, rfl, rfl⟩
        | some t =>
          simp only at h2
          obtain ⟨a, b, c, _⟩ := addBalances_fields t ts st1 st2 h2
          exact ⟨a, b, c⟩
      have goal2 : st'.minter = st2.minter ∧ st'.approves = st2.approves ∧
          st'.tokens = st2.tokens := by
        split at h
        · simp at h
          rw [h.1]
          exact ⟨rfl, rfl, rfl⟩
        · split at h
          · exact absurd h (by simp)
          · rename_i st3 h3
            simp at h
            obtain ⟨a, b, c, _⟩ := decrementAll_fields ts st2 st3 h3
            rw [← h.1]
            exact ⟨a, b, c⟩
        · split at h
          · exact absurd h (by simp)
          · rename_i st3 h3
            simp at h
            obtain ⟨a, b, c, _⟩ := incrementAll_fields ts st2 st3 h3
            rw [← h.1]
            exact ⟨a, b, c⟩
        · exact absurd h (by simp)
      exact ⟨goal2.1.trans (p2.1.trans p1.1), goal2.2.1.trans (p2.2.1.trans p1.2.1),
        goal2.2.2.trans (p2.2.2.trans p1.2.2)⟩

theorem update_transfer_single (st : ContractState) (src dst tid : String) (d : Nat) (b : Balance)
    (hb : lookupKV st.balances (src, tid) = some b) (hle : d ≤ b.amount)
    (hadd : balanceAmount st dst tid + d ≤ U128_MAX) :
    ∃ st2 : ContractState,
      update_transfer_state st (some src) (some dst) [{ token_id := tid, amount := d }] =
        .ok (st2, .transfer src dst [{ token_id := tid, amount := d }]) ∧
      st2.minter = st.minter ∧ st2.approves = st.approves ∧ st2.tokens = st.tokens ∧
      st2.supplies = st.supplies ∧
      (src ≠ dst →
        balanceAmount st2 src tid = b.amount - d ∧
        balanceAmount st2 dst tid = balanceAmount st dst tid + d) := by
  have hsub := subtractBalances_single st src tid d b hb hle
  have hadd1 : balanceAmount
      { st with balances := insertKV st.balances (src, tid) { b with amount := b.amount - d } }
      dst tid + d ≤ U128_MAX := by
    by_cases hsd : src = dst
    · subst hsd
      have hself : balanceAmount
          { st with balances := insertKV st.balances (src, tid) { b with amount := b.amount - d } }
          src tid = b.amount - d := by
        simp [balanceAmount, lookupKV_insertKV_self]
      rw [hself]
      have hbs : balanceAmount st src tid = b.amount := by
        simp [balanceAmount, hb]
      rw [hbs] at hadd
      omega
    · have hkey : ((src, tid) : String × String) ≠ (dst, tid) :=
        fun hk => hsd (congrArg Prod.fst hk)
      have hpres : balanceAmount
          { st with balances := insertKV st.balances (src, tid) { b with amount := b.amount - d } }
          dst tid = balanceAmount st dst tid := by
        simp [balanceAmount, lookupKV_insertKV_ne _ _ _ _ hkey]
      rw [hpres]
      exact hadd
  obtain ⟨b2, haddeq, hb2⟩ := addBalances_single _ dst tid d hadd1
  have inner : List ((String × String) × Balance) :=
    insertKV st.balances (src, tid) { b with amount := b.amount - d }
  refine ⟨{ st with balances := insertKV (insertKV st.balances (src, tid)
      { b with amount := b.amount - d }) (dst, tid) b2 }, ?_, rfl, rfl, rfl, rfl, ?_⟩
  · simp only [update_transfer_state, hsub, haddeq]
  · intro hsd
    have hkey : ((src, tid) : String × String) ≠ (dst, tid) :=
      fun hk => hsd (congrArg Prod.fst hk)
    constructor
    · have h1 : lookupKV (insertKV (insertKV st.balances (src, tid)
          { b with amount := b.amount - d }) (dst, tid) b2) (src, tid) =
          lookupKV (insertKV st.balances (src, tid) { b with amount := b.amount - d }) (src, tid) :=
        lookupKV_insertKV_ne _ _ _ _ (Ne.symm hkey)
      simp [balanceAmount, h1, lookupKV_insertKV_self]
    · have hpres : balanceAmount
          { st with balances := insertKV st.balances (src, tid) { b with amount := b.amount - d } }
          dst tid = balanceAmount st dst tid := by
        simp [balanceAmount, lookupKV_insertKV_ne _ _ _ _ hkey]
      rw [hpres] at hb2
      simp [balanceAmount, lookupKV_insertKV_self, hb2]

theorem update_burn_single (st : ContractState) (src tid : String) (d : Nat) (b : Balance)
    (hb : lookupKV st.balances (src, tid) = some b) (hle : d ≤ b.amount)
    (hsup : d ≤ token_count st tid) :
    ∃ st2 : ContractState,
      update_transfer_state st (some src) none [{ token_id := tid, amount := d }] =
        .ok (st2, .burn src [{ token_id := tid, amount := d }]) ∧
      st2.minter = st.minter ∧ st2.approves = st.approves ∧ st2.tokens = st.tokens ∧
      balanceAmount st2 src tid = b.amount - d ∧
      token_count st2 tid = token_count st tid - d := by
  have hsub := subtractBalances_single st src tid d b hb hle
  have hsup1 : d ≤ token_count
      { st with balances := insertKV st.balances (src, tid) { b with amount := b.amount - d } }
      tid := hsup
  have hdec := decrement_tokens_ok _ tid d hsup1
  refine ⟨{ st with
              balances := insertKV st.balances (src, tid) { b with amount := b.amount - d },
              supplies := insertKV st.supplies tid (token_count st tid - d) },
    ?_, rfl, rfl, rfl, ?_, ?_⟩
  · simp only [update_transfer_state, hsub, decrementAll, hdec]
    rfl
  · simp [balanceAmount, lookupKV_insertKV_self]
  · simp [token_count, lookupKV_insertKV_self]

theorem update_mint_single (st : ContractState) (dst tid : String) (d : Nat)
    (haddb : balanceAmount st dst tid + d ≤ U128_MAX)
    (hsup : token_count st tid + d ≤ U128_MAX) :
    ∃ st2 : ContractState,
      update_transfer_state st none (some dst) [{ token_id := tid, amount := d }] =
        .ok (st2, .mint dst [{ token_id := tid, amount := d }]) ∧
      st2.minter = st.minter ∧ st2.approves = st.approves ∧ st2.tokens = st.tokens ∧
      balanceAmount st2 dst tid = balanceAmount st dst tid + d ∧
      token_count st2 tid = token_count st tid + d := by
  obtain ⟨b2, haddeq, hb2⟩ := addBalances_single st dst tid d haddb
  have hsup1 : token_count { st with balances := insertKV st.balances (dst, tid) b2 } tid + d ≤
      U128_MAX := hsup
  have hinc := increment_tokens_ok _ tid d hsup1
  refine ⟨{ st with
              balances := insertKV st.balances (dst, tid) b2,
              supplies := insertKV st.supplies tid (token_count st tid + d) },
    ?_, rfl, rfl, rfl, ?_, ?_⟩
  · simp only [update_transfer_state, haddeq, incrementAll, hinc]
    rfl
  · simp [balanceAmount, lookupKV_insertKV_self, hb2]
  · simp [token_count, lookupKV_insertKV_self]

theorem callerAuthorized_self (st : ContractState) (blk : BlockInfo) (s : String) :
    callerAuthorized st blk s s = true := by
  simp [callerAuthorized]

theorem verify_approval_ok (st : ContractState) (blk : BlockInfo) (sender owner tid : String)
    (amount : Nat) (b : Balance) (hb : lookupKV st.balances (owner, tid) = some b)
    (hauth : callerAuthorized st blk sender owner = true) :
    verify_approval st blk sender owner tid amount =
      .ok { token_id := tid, amount := min b.amount amount } := by
  simp [verify_approval, hb, hauth]

theorem verify_approval_unauth (st : ContractState) (blk : BlockInfo) (sender owner tid : String)
    (amount : Nat) (b : Balance) (hb : lookupKV st.balances (owner, tid) = some b)
    (hauth : callerAuthorized st blk sender owner = false) :
    verify_approval st blk sender owner tid amount = .error .Unauthorized := by
  simp [verify_approval, hb, hauth]

theorem send_from_char (st : ContractState) (blk : BlockInfo) (sender src dst tid : String)
    (amount : Nat) (payload : Option String) (b : Balance)
    (hb : lookupKV st.balances (src, tid) = some b)
    (hauth : callerAuthorized st blk sender src = true)
    (hadd : balanceAmount st dst tid + min b.amount amount ≤ U128_MAX) :
    ∃ st2 : ContractState, ∃ rsp : Response,
      send_from st blk sender src dst tid amount payload = .ok (st2, rsp) ∧
      rsp.events = [.transfer src dst [{ token_id := tid, amount := min b.amount amount }]] ∧
      rsp.messages = (match payload with
        | some m => [SubMsg.receive sender (some src) tid amount m dst]
        | none => []) ∧
      st2.minter = st.minter ∧ st2.approves = st.approves ∧ st2.tokens = st.tokens ∧
      st2.supplies = st.supplies ∧
      (src ≠ dst →
        balanceAmount st2 src tid = b.amount - min b.amount amount ∧
        balanceAmount st2 dst tid = balanceAmount st dst tid + min b.amount amount) := by
  have hva := verify_approval_ok st blk sender src tid amount b hb hauth
  obtain ⟨st2, heq, p1, p2, p3, p4, p5⟩ :=
    update_transfer_single st src dst tid (min b.amount amount) b hb (Nat.min_le_left _ _) hadd
  refine ⟨st2,
    { events := [.transfer src dst [{ token_id := tid, amount := min b.amount amount }]],
      messages := (match payload with
        | some m => [SubMsg.receive sender (some src) tid amount m dst]
        | none => []) },
    ?_, rfl, rfl, p1, p2, p3, p4, p5⟩
  simp only [send_from, hva, heq]

theorem burn_char (st : ContractState) (blk : BlockInfo) (sender tid : String)
    (amount : Nat) (b : Balance)
    (hb : lookupKV st.balances (sender, tid) = some b)
    (hsup : min b.amount amount ≤ token_count st tid) :
    ∃ st2 : ContractState,
      burn st blk sender tid amount =
        .ok (st2, { events := [.burn sender [{ token_id := tid, amount := min b.amount amount }]],
                    messages := [] }) ∧
      st2.minter = st.minter ∧ st2.approves = st.approves ∧ st2.tokens = st.tokens ∧
      balanceAmount st2 sender tid = b.amount - min b.amount amount ∧
      token_count st2 tid = token_count st tid - min b.amount amount := by
  have hva := verify_approval_ok st blk sender sender tid amount b hb
    (callerAuthorized_self st blk sender)
  obtain ⟨st2, heq, p1, p2, p3, p4, p5⟩ :=
    update_burn_single st sender tid (min b.amount amount) b hb (Nat.min_le_left _ _) hsup
  refine ⟨st2, ?_, p1, p2, p3, p4, p5⟩
  simp only [burn, hva, heq]

theorem mint_char_existing (st : ContractState) (sender : String) (m : MintMsg) (ti : TokenInfo)
    (hm : sender = st.minter)
    (hti : lookupKV st.tokens m.token_id = some ti)
    (hadd : balanceAmount st m.to_addr m.token_id + m.amount ≤ U128_MAX)
    (hsup : token_count st m.token_id + m.amount ≤ U128_MAX) :
    ∃ st2 : ContractState,
      mint st sender m =
        .ok (st2, { events := [.mint m.to_addr [{ token_id := m.token_id, amount := m.amount }]],
                    messages := [] }) ∧
      st2.tokens = st.tokens ∧ st2.minter = st.minter ∧ st2.approves = st.approves ∧
      balanceAmount st2 m.to_addr m.token_id = balanceAmount st m.to_addr m.token_id + m.amount ∧
      token_count st2 m.token_id = token_count st m.token_id + m.amount := by
  obtain ⟨st1, heq, p1, p2, p3, p4, p5⟩ :=
    update_mint_single st m.to_addr m.token_id m.amount hadd hsup
  have htok : lookupKV st1.tokens m.token_id = some ti := by
    rw [p3]
    exact hti
  refine ⟨st1, ?_, p3, p1, p2, p4, p5⟩
  simp only [mint, hm]
  simp only [heq, htok]
  simp

theorem mint_char_fresh (st : ContractState) (sender : String) (m : MintMsg)
    (hm : sender = st.minter)
    (hti : lookupKV st.tokens m.token_id = none)
    (hadd : balanceAmount st m.to_addr m.token_id + m.amount ≤ U128_MAX)
    (hsup : token_count st m.token_id + m.amount + m.amount ≤ U128_MAX) :
    ∃ st2 : ContractState,
      mint st sender m =
        .ok (st2, { events := [.mint m.to_addr [{ token_id := m.token_id, amount := m.amount }]],
                    messages := [] }) ∧
      lookupKV st2.tokens m.token_id =
        some { token_uri := m.token_uri, extension := m.extension } ∧
      st2.minter = st.minter ∧
      balanceAmount st2 m.to_addr m.token_id = balanceAmount st m.to_addr m.token_id + m.amount ∧
      token_count st2 m.token_id = token_count st m.token_id + m.amount + m.amount := by
  have hsup1 : token_count st m.token_id + m.amount ≤ U128_MAX := by omega
  obtain ⟨st1, heq, p1, p2, p3, p4, p5⟩ :=
    update_mint_single st m.to_addr m.token_id m.amount hadd hsup1
  have htok : lookupKV st1.tokens m.token_id = none := by
    rw [p3]
    exact hti
  have hsup2 : token_count st1 m.token_id + m.amount ≤ U128_MAX := by
    rw [p5]
    omega
  have hinc := increment_tokens_ok
    { st1 with tokens := insertKV st1.tokens m.token_id { token_uri := m.token_uri, extension := m.extension } }
    m.token_id m.amount hsup2
  refine ⟨{ st1 with
              tokens := insertKV st1.tokens m.token_id { token_uri := m.token_uri, extension := m.extension },
              supplies := insertKV st1.supplies m.token_id (token_count st1 m.token_id + m.amount) },
    ?_, ?_, ?_, ?_, ?_⟩
  · simp only [mint, hm]
    simp only [heq, htok]
    simp only [Option.isNone_none, if_true]
    rw [hinc]
    simp
    rfl
  · exact lookupKV_insertKV_self _ _ _
  · exact p1
  · exact p4
  · show (lookupKV (insertKV st1.supplies m.token_id
        (token_count st1 m.token_id + m.amount)) m.token_id).getD 0 =
      token_count st m.token_id + m.amount + m.amount
    rw [lookupKV_insertKV_self]
    simp [p5]

theorem checked_sub_err (a b : Nat) (e : ContractError) (h : checked_sub a b = .error e) :
    e = .Underflow := by
  unfold checked_sub at h
  split at h
  · exact absurd h (by simp)
  · simp at h
    subst h
    rfl

theorem checked_add_err (a b : Nat) (e : ContractError) (h : checked_add a b = .error e) :
    e = .Overflow := by
  unfold checked_add at h
  split at h
  · exact absurd h (by simp)
  · simp at h
    subst h
    rfl

theorem subtractBalances_err (src : String) (ts : List TokenAmount) :
    ∀ st e, subtractBalances st src ts = .error e → e = .PanicUnwrapNone ∨ e = .Underflow := by
  induction ts with
  | nil =>
    intro st e h
    simp [subtractBalances] at h
  | cons hd tl ih =>
    intro st e h
    simp only [subtractBalances] at h
    split at h
    · simp at h
      subst h
      left
      rfl
    · split at h
      · rename_i e1 hcs
        simp at h
        subst h
        right
        exact checked_sub_err _ _ _ hcs
      · exact ih _ _ h

theorem addBalances_err (dst : String) (ts : List TokenAmount) :
    ∀ st e, addBalances st dst ts = .error e → e = .Overflow := by
  induction ts with
  | nil =>
    intro st e h
    simp [addBalances] at h
  | cons hd tl ih =>
    intro st e h
    simp only [addBalances] at h
    split at h
    · split at h
      · rename_i e1 hca
        simp at h
        subst h
        exact checked_add_err _ _ _ hca
      · exact ih _ _ h
    · split at h
      · rename_i e1 hca
        simp at h
        subst h
        exact checked_add_err _ _ _ hca
      · exact ih _ _ h

theorem increment_tokens_err (st : ContractState) (id : String) (a : Nat) (e : ContractError)
    (h : increment_tokens st id a = .error e) : e = .Overflow := by
  simp only [increment_tokens] at h
  split at h
  · exact absurd h (by simp)
  · rename_i e1 hca
    simp at h
    subst h
    exact checked_add_err _ _ _ hca

theorem decrement_tokens_err (st : ContractState) (id : String) (a : Nat) (e : ContractError)
    (h : decrement_tokens st id a = .error e) : e = .Underflow := by
  simp only [decrement_tokens] at h
  split at h
  · exact absurd h (by simp)
  · rename_i e1 hcs
    simp at h
    subst h
    exact checked_sub_err _ _ _ hcs

theorem incrementAll_err (ts : List TokenAmount) :
    ∀ st e, incrementAll st ts = .error e → e = .Overflow := by
  induction ts with
  | nil =>
    intro st e h
    simp [incrementAll] at h
  | cons hd tl ih =>
    intro st e h
    simp only [incrementAll] at h
    split at h
    · rename_i e1 hi
      simp at h
      subst h
      exact increment_tokens_err _ _ _ _ hi
    · exact ih _ _ h

theorem decrementAll_err (ts : List TokenAmount) :
    ∀ st e, decrementAll st ts = .error e → e = .Underflow := by
  induction ts with
  | nil =>
    intro st e h
    simp [decrementAll] at h
  | cons hd tl ih =>
    intro st e h
    simp only [decrementAll] at h
    split at h
    · rename_i e1 hi
      simp at h
      subst h
      exact decrement_tokens_err _ _ _ _ hi
    · exact ih _ _ h

theorem verify_approval_err (st : ContractState) (blk : BlockInfo) (sender owner tid : String)
    (amount : Nat) (e : ContractError) (h : verify_approval st blk sender owner tid amount = .error e) :
    e = .NotFound ∨ e = .Unauthorized := by
  simp only [verify_approval] at h
  split at h
  · simp at h
    subst h
    left
    rfl
  · split at h
    · exact absurd h (by simp)
    · simp at h
      subst h
      right
      rfl

theorem verify_approvals_err (st : ContractState) (blk : BlockInfo) (sender owner : String)
    (ts : List TokenAmount) :
    ∀ e, verify_approvals st blk sender owner ts = .error e → e = .NotFound ∨ e = .Unauthorized := by
  induction ts with
  | nil =>
    intro e h
    simp [verify_approvals] at h
  | cons hd tl ih =>
    intro e h
    simp only [verify_approvals] at h
    split at h
    · rename_i e1 hv
      simp at h
      subst h
      exact verify_approval_err _ _ _ _ _ _ _ hv
    · split at h
      · rename_i e1 hv
        simp at h
        subst h
        exact ih _ hv
      · exact absurd h (by simp)

theorem update_transfer_state_err (st : ContractState) (src dst : Option String)
    (ts : List TokenAmount) (e : ContractError) (hs : src.isSome ∨ dst.isSome)
    (h : update_transfer_state st src dst ts = .error e) : e ≠ .PanicBothNone := by
  simp only [update_transfer_state] at h
  split at h
  · rename_i e1 h1
    simp at h
    subst h
    cases src with
    | none => simp at h1
    | some f =>
      simp only at h1
      rcases subtractBalances_err f ts st _ h1 with h2 | h2 <;> simp [h2]
  · rename_i st1 h1
    split at h
    · rename_i e1 h2
      simp at h
      subst h
      cases dst with
      | none => simp at h2
      | some t =>
        simp only at h2
        have h3 := addBalances_err t ts st1 _ h2
        simp [h3]
    · rename_i st2 h2
      split at h
      · simp at h
      · split at h
        · rename_i e1 h3
          simp at h
          subst h
          have h4 := decrementAll_err ts st2 _ h3
          simp [h4]
        · simp at h
      · split at h
        · rename_i e1 h3
          simp at h
          subst h
          have h4 := incrementAll_err ts st2 _ h3
          simp [h4]
        · simp at h
      · simp at hs

theorem mint_err (st : ContractState) (sender : String) (m : MintMsg) (e : ContractError)
    (h : mint st sender m = .error e) : e ≠ .PanicBothNone := by
  simp only [mint] at h
  split at h
  · simp at h
    subst h
    simp
  · split at h
    · rename_i e1 h1
      simp at h
      subst h
      exact update_transfer_state_err _ _ _ _ _ (by simp) h1
    · split at h
      · split at h
        · rename_i e1 h2
          simp at h
          subst h
          have h3 := increment_tokens_err _ _ _ _ h2
          simp [h3]
        · simp at h
      · simp at h

theorem send_from_err (st : ContractState) (blk : BlockInfo) (sender src dst tid : String)
    (amount : Nat) (payload : Option String) (e : ContractError)
    (h : send_from st blk sender src dst tid amount payload = .error e) : e ≠ .PanicBothNone := by
  simp only [send_from] at h
  split at h
  · rename_i e1 h1
    simp at h
    subst h
    rcases verify_approval_err _ _ _ _ _ _ _ h1 with h2 | h2 <;> simp [h2]
  · split at h
    · rename_i e1 h2
      simp at h
      subst h
      exact update_transfer_state_err _ _ _ _ _ (by simp) h2
    · simp at h

theorem batch_send_from_err (st : ContractState) (blk : BlockInfo) (sender src dst : String)
    (batch : List TokenAmount) (payload : Option String) (e : ContractError)
    (h : batch_send_from st blk sender src dst batch payload = .error e) :
    e ≠ .PanicBothNone := by
  simp only [batch_send_from] at h
  split at h
  · rename_i e1 h1
    simp at h
    subst h
    rcases verify_approvals_err _ _ _ _ _ _ h1 with h2 | h2 <;> simp [h2]
  · split at h
    · rename_i e1 h2
      simp at h
      subst h
      exact update_transfer_state_err _ _ _ _ _ (by simp) h2
    · simp at h

theorem burn_err (st : ContractState) (blk : BlockInfo) (sender tid : String) (amount : Nat)
    (e : ContractError) (h : burn st blk sender tid amount = .error e) : e ≠ .PanicBothNone := by
  simp only [burn] at h
  split at h
  · rename_i e1 h1
    simp at h
    subst h
    rcases verify_approval_err _ _ _ _ _ _ _ h1 with h2 | h2 <;> simp [h2]
  · split at h
    · rename_i e1 h2
      simp at h
      subst h
      exact update_transfer_state_err _ _ _ _ _ (by simp) h2
    · simp at h

theorem batch_burn_err (st : ContractState) (blk : BlockInfo) (sender : String)
    (batch : List TokenAmount) (e : ContractError)
    (h : batch_burn st blk sender batch = .error e) : e ≠ .PanicBothNone := by
  simp only [batch_burn] at h
  split at h
  · rename_i e1 h1
    simp at h
    subst h
    rcases verify_approvals_err _ _ _ _ _ _ h1 with h2 | h2 <;> simp [h2]
  · split at h
    · rename_i e1 h2
      simp at h
      subst h
      exact update_transfer_state_err _ _ _ _ _ (by simp) h2
    · simp at h

theorem approve_all_err (st : ContractState) (blk : BlockInfo) (sender operator : String)
    (expires : Option Expiration) (e : ContractError)
    (h : approve_all st blk sender operator expires = .error e) : e ≠ .PanicBothNone := by
  simp only [approve_all] at h
  split at h
  · simp at h
    subst h
    simp
  · simp at h

theorem execute_err (st : ContractState) (blk : BlockInfo) (sender : String) (msg : ExecuteMsg)
    (e : ContractError) (h : execute st blk sender msg = .error e) : e ≠ .PanicBothNone := by
  cases msg with
  | Mint m => exact mint_err _ _ _ _ h
  | SendFrom src dst tid amount payload => exact send_from_err _ _ _ _ _ _ _ _ _ h
  | BatchSendFrom src dst batch payload => exact batch_send_from_err _ _ _ _ _ _ _ _ h
  | Burn tid amount => exact burn_err _ _ _ _ _ _ h
  | BatchBurn batch => exact batch_burn_err _ _ _ _ _ h
  | ApproveAll operator expires => exact approve_all_err _ _ _ _ _ _ h
  | RevokeAll operator => simp [execute, revoke_all] at h

theorem mint_ok_minter (st : ContractState) (sender : String) (m : MintMsg)
    (st' : ContractState) (rsp : Response) (h : mint st sender m = .ok (st', rsp)) :
    st'.minter = st.minter := by
  simp only [mint] at h
  split at h
  · simp at h
  · split at h
    · simp at h
    · rename_i p h1
      split at h
      · split at h
        · simp at h
        · rename_i st2 h2
          simp at h
          obtain ⟨a, _, _, _⟩ := increment_tokens_fields _ _ _ _ h2
          have b := (update_transfer_state_fields _ _ _ _ _ _ h1).1
          rw [← h.1, a]
          exact b
      · simp at h
        rw [← h.1]
        exact (update_transfer_state_fields _ _ _ _ _ _ h1).1

theorem send_from_ok_minter (st : ContractState) (blk : BlockInfo) (sender src dst tid : String)
    (amount : Nat) (payload : Option String) (st' : ContractState) (rsp : Response)
    (h : send_from st blk sender src dst tid amount payload = .ok (st', rsp)) :
    st'.minter = st.minter := by
  simp only [send_from] at h
  split at h
  · simp at h
  · split at h
    · simp at h
    · rename_i p h1
      simp at h
      rw [← h.1]
      exact (update_transfer_state_fields _ _ _ _ _ _ h1).1

theorem batch_send_from_ok_minter (st : ContractState) (blk : BlockInfo) (sender src dst : String)
    (batch : List TokenAmount) (payload : Option String) (st' : ContractState) (rsp : Response)
    (h : batch_send_from st blk sender src dst batch payload = .ok (st', rsp)) :
    st'.minter = st.minter := by
  simp only [batch_send_from] at h
  split at h
  · simp at h
  · split at h
    · simp at h
    · rename_i p h1
      simp at h
      rw [← h.1]
      exact (update_transfer_state_fields _ _ _ _ _ _ h1).1

theorem burn_ok_minter (st : ContractState) (blk : BlockInfo) (sender tid : String)
    (amount : Nat) (st' : ContractState) (rsp : Response)
    (h : burn st blk sender tid amount = .ok (st', rsp)) : st'.minter = st.minter := by
  simp only [burn] at h
  split at h
  · simp at h
  · split at h
    · simp at h
    · rename_i p h1
      simp at h
      rw [← h.1]
      exact (update_transfer_state_fields _ _ _ _ _ _ h1).1

theorem batch_burn_ok_minter (st : ContractState) (blk : BlockInfo) (sender : String)
    (batch : List TokenAmount) (st' : ContractState) (rsp : Response)
    (h : batch_burn st blk sender batch = .ok (st', rsp)) : st'.minter = st.minter := by
  simp only [batch_burn] at h
  split at h
  · simp at h
  · split at h
    · simp at h
    · rename_i p h1
      simp at h
      rw [← h.1]
      exact (update_transfer_state_fields _ _ _ _ _ _ h1).1

theorem execute_ok_minter (st : ContractState) (blk : BlockInfo) (sender : String)
    (msg : ExecuteMsg) (st' : ContractState) (rsp : Response)
    (h : execute st blk sender msg = .ok (st', rsp)) : st'.minter = st.minter := by
  cases msg with
  | Mint m => exact mint_ok_minter _ _ _ _ _ h
  | SendFrom src dst tid amount payload => exact send_from_ok_minter _ _ _ _ _ _ _ _ _ _ h
  | BatchSendFrom src dst batch payload => exact batch_send_from_ok_minter _ _ _ _ _ _ _ _ _ h
  | Burn tid amount => exact burn_ok_minter _ _ _ _ _ _ _ h
  | BatchBurn batch => exact batch_burn_ok_minter _ _ _ _ _ _ h
  | ApproveAll operator expires =>
    simp only [execute, approve_all] at h
    split at h
    · simp at h
    · simp at h
      rw [← h.1]
  | RevokeAll operator =>
    simp only [execute, revoke_all] at h
    simp at h
    rw [← h.1]

theorem verify_approvals_mem_err (st : ContractState) (blk : BlockInfo) (sender owner : String)
    (ts : List TokenAmount) (ta : TokenAmount) (e : ContractError) (hmem : ta ∈ ts)
    (hfail : verify_approval st blk sender owner ta.token_id ta.amount = .error e) :
    ∃ e1, verify_approvals st blk sender owner ts = .error e1 := by
  induction ts with
  | nil => cases hmem
  | cons hd tl ih =>
    cases hv : verify_approval st blk sender owner hd.token_id hd.amount with
    | error e1 =>
      refine ⟨e1, ?_⟩
      simp [verify_approvals, hv]
    | ok v =>
      rcases List.mem_cons.mp hmem with hm | hm
      · subst hm
        rw [hfail] at hv
        cases hv
      · obtain ⟨e1, h1⟩ := ih hm
        refine ⟨e1, ?_⟩
        simp [verify_approvals, hv, h1]

/-- Claim C1 (conservation invariant): the claim states that after any
sequence of successful operations the supply counter of every asset-id
equals the sum of balances for that asset-id.  The code breaks this on
the very first operation: on a first mint of a token-id, `mint` applies
the mint transfer-state update (which already increments the supply
counter by the minted amount) and then calls `increment_tokens` a
second time for the same token-id and amount.  Minting 100 of token `A`
to `alice` from the freshly instantiated contract succeeds and leaves
the supply counter of `A` at 200 while the balances for `A` sum to
100. -/
theorem C1_first_mint_breaks_conservation :
    execute (instantiate "m") ⟨7, 0⟩ "m" (.Mint mintMsgA) =
      .ok (stAfterFirstMint,
        { events := [.mint "alice" [{ token_id := "A", amount := 100 }]], messages := [] }) ∧
    token_count stAfterFirstMint "A" = 200 ∧
    sumBalances stAfterFirstMint "A" = 100 ∧
    token_count stAfterFirstMint "A" ≠ sumBalances stAfterFirstMint "A" := by
  decide

/-- Claim C2 (clamp semantics): for a send-from or burn whose caller is
authorized and whose owner has a balance record, requesting more than
the current balance is not an error: the authorized amount is
min(requested, balance) — here equal to the balance — and the operation
succeeds, transferring or burning exactly the current balance (the
send-from conclusion assumes the recipient-side checked add stays in
128-bit range, the burn conclusion that the supply counter covers the
burned amount; both hold in every state the contract itself
produces). -/
theorem C2_clamp_semantics (st : ContractState) (blk : BlockInfo) (sender src dst tid : String)
    (amount : Nat) (payload : Option String) (b : Balance)
    (hb : lookupKV st.balances (src, tid) = some b)
    (hauth : callerAuthorized st blk sender src = true)
    (hover : b.amount < amount) :
    verify_approval st blk sender src tid amount = .ok { token_id := tid, amount := b.amount } ∧
    (balanceAmount st dst tid + b.amount ≤ U128_MAX →
      ∃ st2 rsp, send_from st blk sender src dst tid amount payload = .ok (st2, rsp) ∧
        rsp.events = [.transfer src dst [{ token_id := tid, amount := b.amount }]]) ∧
    (∀ bs : Balance, lookupKV st.balances (sender, tid) = some bs → bs.amount < amount →
      bs.amount ≤ token_count st tid →
      ∃ st2 rsp, burn st blk sender tid amount = .ok (st2, rsp) ∧
        rsp.events = [.burn sender [{ token_id := tid, amount := bs.amount }]]) := by
  have hmin : min b.amount amount = b.amount := Nat.min_eq_left (Nat.le_of_lt hover)
  refine ⟨?_, ?_, ?_⟩
  · have hva := verify_approval_ok st blk sender src tid amount b hb hauth
    rw [hmin] at hva
    exact hva
  · intro hadd
    have hadd2 : balanceAmount st dst tid + min b.amount amount ≤ U128_MAX := by
      rw [hmin]
      exact hadd
    obtain ⟨st2, rsp, heq, hev, _⟩ :=
      send_from_char st blk sender src dst tid amount payload b hb hauth hadd2
    rw [hmin] at hev
    exact ⟨st2, rsp, heq, hev⟩
  · intro bs hbs hover2 hsup
    have hmin2 : min bs.amount amount = bs.amount := Nat.min_eq_left (Nat.le_of_lt hover2)
    have hsup2 : min bs.amount amount ≤ token_count st tid := by
      rw [hmin2]
      exact hsup
    obtain ⟨st2, heq, _⟩ := burn_char st blk sender tid amount bs hbs hsup2
    rw [hmin2] at heq
    exact ⟨st2, _, heq, rfl⟩

/-- Claim C2 witness: in the fixture state `alice` holds 100 of token
`A`; requesting a transfer of 150 authorizes exactly 100. -/
theorem C2_clamp_semantics_witness :
    verify_approval stW ⟨0, 0⟩ "alice" "alice" "A" 150 =
      .ok { token_id := "A", amount := 100 } :=
  (C2_clamp_semantics stW ⟨0, 0⟩ "alice" "alice" "carol" "A" 150 none balA
    (by decide) (by decide) (by decide)).1

/-- Claim C3 counterexample: the claim as stated fails when the owner has
no balance record for the asset-id — an owner-initiated send-from then
fails (with a not-found error) although the claim promises success, and
a non-owner, non-operator caller also gets the not-found error rather
than the promised `Unauthorized`.  It also fails at the 128-bit bounds:
an owner-initiated send-from to a recipient holding the maximal balance
fails with an overflow error, and an owner-initiated burn in a state
whose supply counter is below the balance fails with an underflow
error. -/
theorem C3_counterexample :
    send_from (instantiate "m") ⟨0, 0⟩ "alice" "alice" "bob" "A" 5 none = .error .NotFound ∧
    send_from (instantiate "m") ⟨0, 0⟩ "eve" "alice" "bob" "A" 5 none = .error .NotFound ∧
    send_from stOv ⟨0, 0⟩ "alice" "alice" "bob" "A" 1 none = .error .Overflow ∧
    burn stUf ⟨0, 0⟩ "alice" "A" 5 = .error .Underflow := by
  decide

/-- Claim C3 (amended): provided the owner has a balance record for the
asset-id, a send-from by a caller that is neither the owner nor an
unexpired operator fails with `Unauthorized`; one by the owner or an
unexpired operator succeeds (subject to clamping) whenever the
recipient-side checked add stays in 128-bit range, and a burn by the
owner succeeds whenever the supply counter covers the clamped amount
(burns are always owner-initiated, so a burn never returns
`Unauthorized`). -/
theorem C3_authorization_soundness (st : ContractState) (blk : BlockInfo)
    (sender src dst tid : String) (amount : Nat) (b : Balance)
    (hb : lookupKV st.balances (src, tid) = some b) :
    (callerAuthorized st blk sender src = false →
      ∀ payload, send_from st blk sender src dst tid amount payload = .error .Unauthorized) ∧
    (callerAuthorized st blk sender src = true →
      balanceAmount st dst tid + min b.amount amount ≤ U128_MAX →
      ∀ payload, ∃ st2 rsp, send_from st blk sender src dst tid amount payload = .ok (st2, rsp)) ∧
    (∀ bs : Balance, lookupKV st.balances (sender, tid) = some bs →
      min bs.amount amount ≤ token_count st tid →
      ∃ st2 rsp, burn st blk sender tid amount = .ok (st2, rsp)) := by
  refine ⟨?_, ?_, ?_⟩
  · intro hf payload
    have hva := verify_approval_unauth st blk sender src tid amount b hb hf
    simp [send_from, hva]
  · intro ht hadd payload
    obtain ⟨st2, rsp, heq, _⟩ := send_from_char st blk sender src dst tid amount payload b hb ht hadd
    exact ⟨st2, rsp, heq⟩
  · intro bs hbs hsup
    obtain ⟨st2, heq, _⟩ := burn_char st blk sender tid amount bs hbs hsup
    exact ⟨st2, _, heq⟩

/-- Claim C3 witness: `eve` holds no approval from `alice`, so her
send-from of `alice` funds is rejected as `Unauthorized`. -/
theorem C3_authorization_soundness_witness :
    send_from stW ⟨0, 0⟩ "eve" "alice" "bob" "A" 5 none = .error .Unauthorized :=
  ((C3_authorization_soundness stW ⟨0, 0⟩ "eve" "alice" "bob" "A" 5 balA (by decide)).1
    (by decide)) none

/-- Claim C4 (batch atomicity): when authorization fails for any item of
a batch-send-from or batch-burn, the whole operation returns an error
and the committed state equals the pre-state — the approvals of the
whole batch are verified before any balance or supply write. -/
theorem C4_batch_atomicity (st : ContractState) (blk : BlockInfo) (sender src dst : String)
    (batch : List TokenAmount) (payload : Option String) (ta : TokenAmount) (e : ContractError)
    (hmem : ta ∈ batch)
    (hfail : verify_approval st blk sender src ta.token_id ta.amount = .error e) :
    (∃ e1, batch_send_from st blk sender src dst batch payload = .error e1) ∧
    commitState st (batch_send_from st blk sender src dst batch payload) = st ∧
    (∀ e2, verify_approval st blk sender sender ta.token_id ta.amount = .error e2 →
      (∃ e3, batch_burn st blk sender batch = .error e3) ∧
      commitState st (batch_burn st blk sender batch) = st) := by
  obtain ⟨e1, h1⟩ := verify_approvals_mem_err st blk sender src batch ta e hmem hfail
  have hbs : batch_send_from st blk sender src dst batch payload = .error e1 := by
    simp [batch_send_from, h1]
  refine ⟨⟨e1, hbs⟩, by rw [hbs]; rfl, ?_⟩
  intro e2 hfail2
  obtain ⟨e3, h3⟩ := verify_approvals_mem_err st blk sender sender batch ta e2 hmem hfail2
  have hbb : batch_burn st blk sender batch = .error e3 := by
    simp [batch_burn, h3]
  exact ⟨⟨e3, hbb⟩, by rw [hbb]; rfl⟩

/-- Claim C4 witness: a batch containing one item for which `eve` is not
authorized leaves the committed state unchanged. -/
theorem C4_batch_atomicity_witness :
    commitState stW (batch_send_from stW ⟨0, 0⟩ "eve" "alice" "bob"
      [{ token_id := "A", amount := 5 }] none) = stW :=
  (C4_batch_atomicity stW ⟨0, 0⟩ "eve" "alice" "bob" [{ token_id := "A", amount := 5 }] none
    { token_id := "A", amount := 5 } .Unauthorized (by decide) (by decide)).2.1

/-- Claim C5 (approval expiry boundary): an operator approved with an
at-height-H expiry is authorized by `verify_approval` at block heights
up to H-1 and rejected as `Unauthorized` — and the whole send-from is
rejected as `Unauthorized` — at heights H and later. -/
theorem C5_expiry_boundary (st : ContractState) (blk : BlockInfo)
    (sender owner dst tid : String) (amount : Nat) (H : Nat) (b : Balance)
    (hne : sender ≠ owner)
    (happ : lookupKV st.approves (owner, sender) = some (.atHeight H))
    (hb : lookupKV st.balances (owner, tid) = some b) :
    (blk.height < H →
      verify_approval st blk sender owner tid amount =
        .ok { token_id := tid, amount := min b.amount amount }) ∧
    (H ≤ blk.height →
      verify_approval st blk sender owner tid amount = .error .Unauthorized ∧
      ∀ payload, send_from st blk sender owner dst tid amount payload = .error .Unauthorized) := by
  have hbeq : (owner == sender) = false := by
    simp only [beq_eq_false_iff_ne]
    exact Ne.symm hne
  have hca : callerAuthorized st blk sender owner = ! decide (H ≤ blk.height) := by
    simp [callerAuthorized, approvedNotExpired, happ, Expiration.is_expired, hbeq]
  constructor
  · intro hlt
    have ht : callerAuthorized st blk sender owner = true := by
      rw [hca]
      simp [Nat.not_le.mpr hlt]
    exact verify_approval_ok st blk sender owner tid amount b hb ht
  · intro hge
    have hfalse : callerAuthorized st blk sender owner = false := by
      rw [hca]
      simp [hge]
    have hva := verify_approval_unauth st blk sender owner tid amount b hb hfalse
    refine ⟨hva, fun payload => ?_⟩
    simp [send_from, hva]

/-- Claim C5 witness: `bob` is approved by `alice` until height 5; he is
authorized at height 4 and rejected at height 5. -/
theorem C5_expiry_boundary_witness :
    verify_approval stW ⟨4, 0⟩ "bob" "alice" "A" 40 = .ok { token_id := "A", amount := 40 } ∧
    verify_approval stW ⟨5, 0⟩ "bob" "alice" "A" 40 = .error .Unauthorized := by
  constructor
  · exact (C5_expiry_boundary stW ⟨4, 0⟩ "bob" "alice" "z" "A" 40 5 balA
      (by decide) (by decide) (by decide)).1 (by decide)
  · exact ((C5_expiry_boundary stW ⟨5, 0⟩ "bob" "alice" "z" "A" 40 5 balA
      (by decide) (by decide) (by decide)).2 (by decide)).1

/-- Claim C6 (approve-all expiry validation): an approve-all whose
(defaulted) expiry is already expired fails with `Expired` and commits
nothing; with a non-expired expiry the approval record is written under
key (sender, operator), overwriting any prior record. -/
theorem C6_approve_all_expiry (st : ContractState) (blk : BlockInfo) (sender operator : String)
    (expires : Option Expiration) :
    ((expires.getD .never).is_expired blk = true →
      approve_all st blk sender operator expires = .error .Expired ∧
      commitState st (approve_all st blk sender operator expires) = st) ∧
    ((expires.getD .never).is_expired blk = false →
      approve_all st blk sender operator expires =
        .ok ({ st with approves := insertKV st.approves (sender, operator) (expires.getD .never) },
          { events := [.approveAll sender operator], messages := [] }) ∧
      lookupKV (commitState st (approve_all st blk sender operator expires)).approves
        (sender, operator) = some (expires.getD .never)) := by
  constructor
  · intro hexp
    have h1 : approve_all st blk sender operator expires = .error .Expired := by
      simp [approve_all, hexp]
    exact ⟨h1, by rw [h1]; rfl⟩
  · intro hnexp
    have h1 : approve_all st blk sender operator expires =
        .ok ({ st with approves := insertKV st.approves (sender, operator) (expires.getD .never) },
          { events := [.approveAll sender operator], messages := [] }) := by
      simp [approve_all, hnexp]
    refine ⟨h1, ?_⟩
    rw [h1]
    exact lookupKV_insertKV_self _ _ _

/-- Claim C6 witness: at height 10 an at-height-5 expiry is rejected as
`Expired`; at height 0 the same expiry is accepted and the approval
record is written. -/
theorem C6_approve_all_expiry_witness :
    approve_all stW ⟨10, 0⟩ "alice" "bob" (some (.atHeight 5)) = .error .Expired ∧
    lookupKV (commitState stW
        (approve_all stW ⟨0, 0⟩ "alice" "carol" (some (.atHeight 5)))).approves
      ("alice", "carol") = some (.atHeight 5) := by
  constructor
  · exact ((C6_approve_all_expiry stW ⟨10, 0⟩ "alice" "bob" (some (.atHeight 5))).1
      (by decide)).1
  · exact ((C6_approve_all_expiry stW ⟨0, 0⟩ "alice" "carol" (some (.atHeight 5))).2
      (by decide)).2

/-- Claim C7 (minter-only mint): a mint by a caller other than the
minter stored at instantiation fails with `Unauthorized` and commits no
state change, and no operation of the contract ever changes the stored
minter address. -/
theorem C7_minter_only_mint (st : ContractState) (blk : BlockInfo) (sender : String)
    (m : MintMsg) (msg : ExecuteMsg) :
    (sender ≠ st.minter →
      mint st sender m = .error .Unauthorized ∧
      commitState st (mint st sender m) = st) ∧
    (commitState st (execute st blk sender msg)).minter = st.minter := by
  constructor
  · intro hne
    have h1 : mint st sender m = .error .Unauthorized := by
      simp [mint, hne]
    exact ⟨h1, by rw [h1]; rfl⟩
  · cases hr : execute st blk sender msg with
    | error e => rfl
    | ok p =>
      obtain ⟨st2, rsp⟩ := p
      exact execute_ok_minter st blk sender msg st2 rsp hr

/-- Claim C7 witness: `eve` cannot mint in the fixture state, and a
successful mint by the minter leaves the stored minter unchanged. -/
theorem C7_minter_only_mint_witness :
    mint stW "eve" mintMsgA = .error .Unauthorized ∧
    (commitState stW (execute stW ⟨0, 0⟩ "m" (.Mint mintMsgA))).minter = "m" := by
  constructor
  · exact ((C7_minter_only_mint stW ⟨0, 0⟩ "eve" mintMsgA (.RevokeAll "bob")).1 (by decide)).1
  · exact (C7_minter_only_mint stW ⟨0, 0⟩ "m" mintMsgA (.Mint mintMsgA)).2

/-- Claim C8 (metadata first-writer-wins): a successful mint of a
token-id that already has a metadata record leaves the token-metadata
map unchanged while the recipient's balance still grows by the minted
amount; a mint of a previously-unseen token-id creates the metadata
record from the mint message (the bounds assumptions keep the 128-bit
checked additions in range). -/
theorem C8_metadata_first_writer_wins (st : ContractState) (sender : String) (m : MintMsg)
    (hm : sender = st.minter)
    (hadd : balanceAmount st m.to_addr m.token_id + m.amount ≤ U128_MAX) :
    (∀ ti : TokenInfo, lookupKV st.tokens m.token_id = some ti →
      token_count st m.token_id + m.amount ≤ U128_MAX →
      ∃ st2 rsp, mint st sender m = .ok (st2, rsp) ∧ st2.tokens = st.tokens ∧
        balanceAmount st2 m.to_addr m.token_id =
          balanceAmount st m.to_addr m.token_id + m.amount) ∧
    (lookupKV st.tokens m.token_id = none →
      token_count st m.token_id + m.amount + m.amount ≤ U128_MAX →
      ∃ st2 rsp, mint st sender m = .ok (st2, rsp) ∧
        lookupKV st2.tokens m.token_id =
          some { token_uri := m.token_uri, extension := m.extension } ∧
        balanceAmount st2 m.to_addr m.token_id =
          balanceAmount st m.to_addr m.token_id + m.amount) := by
  constructor
  · intro ti hti hsup
    obtain ⟨st2, heq, ptok, pmin, papp, pbal, psup⟩ :=
      mint_char_existing st sender m ti hm hti hadd hsup
    exact ⟨st2, _, heq, ptok, pbal⟩
  · intro hti hsup
    obtain ⟨st2, heq, ptok, pmin, pbal, psup⟩ := mint_char_fresh st sender m hm hti hadd hsup
    exact ⟨st2, _, heq, ptok, pbal⟩

/-- Claim C8 witness: minting 100 more of the already-known token `A`
leaves its metadata untouched and raises the balance from 100 to
200. -/
theorem C8_metadata_first_writer_wins_witness :
    ∃ st2 rsp, mint stW "m" mintMsgA = .ok (st2, rsp) ∧ st2.tokens = stW.tokens ∧
      balanceAmount st2 "alice" "A" = balanceAmount stW "alice" "A" + 100 := by
  have h := C8_metadata_first_writer_wins stW "m" mintMsgA (by decide) (by decide)
  exact h.1 { token_uri := some "u", extension := none } (by decide) (by decide)

/-- Claim C9 (unreachable from-and-to-absent branch): no externally
dispatchable message ever makes `execute` end in the modelled
`panic!` of the both-`None` branch of `update_transfer_state`: every
handler passes at least one of source and destination. -/
theorem C9_panic_unreachable :
    ∀ (st : ContractState) (blk : BlockInfo) (sender : String) (msg : ExecuteMsg),
      notBothNonePanic (execute st blk sender msg) = true := by
  intro st blk sender msg
  cases hr : execute st blk sender msg with
  | ok p => rfl
  | error e =>
    have h := execute_err st blk sender msg e hr
    cases e with
    | Unauthorized => rfl
    | Expired => rfl
    | NotFound => rfl
    | Overflow => rfl
    | Underflow => rfl
    | PanicBothNone => exact absurd rfl h
    | PanicUnwrapNone => rfl

/-- Claim C10 (hook amount discrepancy): a successful over-requested
send-from with an attached payload persists and logs the clamped
amount — the transfer event carries the clamped amount, the sender's
balance drops to zero and the recipient's rises by the clamped
amount — yet the receive hook sent to the recipient carries the
original unclamped requested amount. -/
theorem C10_hook_unclamped (st : ContractState) (blk : BlockInfo) (sender src dst tid : String)
    (amount : Nat) (payload : String) (b : Balance)
    (hb : lookupKV st.balances (src, tid) = some b)
    (hauth : callerAuthorized st blk sender src = true)
    (hover : b.amount < amount)
    (hadd : balanceAmount st dst tid + b.amount ≤ U128_MAX)
    (hne : src ≠ dst) :
    ∃ st2 rsp, send_from st blk sender src dst tid amount (some payload) = .ok (st2, rsp) ∧
      rsp.events = [.transfer src dst [{ token_id := tid, amount := b.amount }]] ∧
      rsp.messages = [.receive sender (some src) tid amount payload dst] ∧
      balanceAmount st2 src tid = 0 ∧
      balanceAmount st2 dst tid = balanceAmount st dst tid + b.amount := by
  have hmin : min b.amount amount = b.amount := Nat.min_eq_left (Nat.le_of_lt hover)
  have hadd2 : balanceAmount st dst tid + min b.amount amount ≤ U128_MAX := by
    rw [hmin]
    exact hadd
  obtain ⟨st2, rsp, heq, hev, hmsg, q1, q2, q3, q4, hbal⟩ :=
    send_from_char st blk sender src dst tid amount (some payload) b hb hauth hadd2
  obtain ⟨hsrc, hdst⟩ := hbal hne
  refine ⟨st2, rsp, heq, ?_, ?_, ?_, ?_⟩
  · rw [hmin] at hev
    exact hev
  · rw [hmsg]
  · rw [hmin] at hsrc
    rw [hsrc]
    exact Nat.sub_self _
  · rw [hmin] at hdst
    exact hdst

/-- Claim C10 witness: `alice` holds 100 of token `A` and requests a
transfer of 150 with a payload; the event and balances move 100 while
the hook message says 150. -/
theorem C10_hook_unclamped_witness :
    ∃ st2 rsp,
      send_from stW ⟨0, 0⟩ "alice" "alice" "carol" "A" 150 (some "data") = .ok (st2, rsp) ∧
      rsp.events = [.transfer "alice" "carol" [{ token_id := "A", amount := 100 }]] ∧
      rsp.messages = [.receive "alice" (some "alice") "A" 150 "data" "carol"] ∧
      balanceAmount st2 "alice" "A" = 0 ∧
      balanceAmount st2 "carol" "A" = balanceAmount stW "carol" "A" + 100 :=
  C10_hook_unclamped stW ⟨0, 0⟩ "alice" "alice" "carol" "A" 150 "data" balA
    (by decide) (by decide) (by decide) (by decide) (by decide)
